import Mathlib

/-!
# Verification of `s3cleanup.py` (ltbnc/s3test)

Shallow embedding of the core logic of `src/s3cleanup.py`: the deployment
selector (`getDeployments`) and the deletion executor (`deleteDeployments`,
with its helper `getPrefixSize`).

Modelling decisions:
* An S3 object (`StoredObject`) carries its `key`, its `last_modified`
  timestamp (modelled as a `Nat`) and its `size` in bytes (a `Nat`).
* A `Bucket` is its name together with the list of its objects, in listing
  order; `bucket.objects.all()` is the `objects` field.
* Python's `sorted(..., key=getLastModified, reverse=False)` is a stable
  ascending sort by the key.  Stable sorts by a key are extensionally
  unique, so we embed it as the stable insertion sort `sortByLastModified`
  (an element is inserted before the first strictly-later element and
  after all earlier-or-equal ones, which preserves listing order on ties).
* Python's substring test `objectName in obj.key` is `strContains`.
* `raise Exception(...)` is an `Except.error` carrying the message string.
* Storage side effects of the executor are made explicit: `deleteLoop`
  threads the bucket state and records an `S3Event` trace (one
  `sizeLookup` per issued `bucket.objects.filter(Prefix=p)` size query,
  one `deleteCall` per issued `bucket.objects.filter(Prefix=p).delete()`),
  plus the printed per-prefix report lines.  Python accumulates
  `totalSize` left to right; the embedding adds the same summands
  right-associated, which is the same natural number.
-/

/-- An object of the bucket, as observed by the listing: full key, last
modified timestamp (`Nat`), size in bytes. -/
structure StoredObject where
  key : String
  lastModified : Nat
  size : Nat
deriving DecidableEq, Repr

/-- A bucket: its name and its current objects in listing order. -/
structure Bucket where
  name : String
  objects : List StoredObject
deriving DecidableEq, Repr

/-- `getLastModified(bucketObject)`: the sort key used by the selector. -/
def getLastModified (o : StoredObject) : Nat :=
  o.lastModified

/-- Substring containment on `List Char`, the semantics of Python's
`needle in hay`: some (possibly empty) contiguous run of `hay` equals
`needle`. -/
def infixOf : List Char → List Char → Bool
  | needle, [] => needle.isEmpty
  | needle, hay@(_ :: rest) => needle.isPrefixOf hay || infixOf needle rest

/-- Python's `needle in hay` on strings. -/
def strContains (hay needle : String) : Bool :=
  infixOf needle.data hay.data

/-- The filter applied by `getDeployments`: `objectName in obj.key`. -/
def matchesFilter (objectName : String) (o : StoredObject) : Bool :=
  strContains o.key objectName

/-- Insert `x` into `l` before the first element whose `getLastModified`
is strictly larger; used to embed Python's stable `sorted`. -/
def insertByTime (x : StoredObject) : List StoredObject → List StoredObject
  | [] => [x]
  | y :: ys =>
    if getLastModified x ≤ getLastModified y then x :: y :: ys
    else y :: insertByTime x ys

/-- `sorted(bucket.objects.all(), key=getLastModified, reverse=False)`:
stable ascending sort by `lastModified`. -/
def sortByLastModified : List StoredObject → List StoredObject
  | [] => []
  | x :: xs => insertByTime x (sortByLastModified xs)

/-- The `sortedDeployments` local of `getDeployments`. -/
def sortedDeployments (allObjects : List StoredObject) : List StoredObject :=
  sortByLastModified allObjects

/-- The `filteredDeployments` local of `getDeployments`: objects of the
sorted listing whose key contains `objectName`. -/
def filteredDeployments (allObjects : List StoredObject) (objectName : String) :
    List StoredObject :=
  (sortedDeployments allObjects).filter (matchesFilter objectName)

/-- The final loop of `getDeployments`: starting at index `i`, keep the
elements whose index is `>= keepCount` (`for i, obj in enumerate(...):
if i >= keepCount: targetDeployments.append(obj)`). -/
def keepTail (keepCount : Int) (i : Int) : List StoredObject → List StoredObject
  | [] => []
  | o :: rest =>
    if i ≥ keepCount then o :: keepTail keepCount (i + 1) rest
    else keepTail keepCount (i + 1) rest

/-- The `targetDeployments` local of `getDeployments`. -/
def targetDeployments (allObjects : List StoredObject) (objectName : String)
    (keepCount : Int) : List StoredObject :=
  keepTail keepCount 0 (filteredDeployments allObjects objectName)

/-- The message of the exception raised when nothing matches. -/
def noMatchMessage (objectName : String) : String :=
  "No objects found matching specified name: " ++ objectName

/-- `getDeployments(bucket, objectName, keepCount)` over the listing
`allObjects = bucket.objects.all()`: sort ascending by `lastModified`,
filter by substring, raise when no match, else return the entries of the
filtered list at index `>= keepCount`. -/
def getDeployments (allObjects : List StoredObject) (objectName : String)
    (keepCount : Int) : Except String (List StoredObject) :=
  if (filteredDeployments allObjects objectName).isEmpty then
    Except.error (noMatchMessage objectName)
  else
    Except.ok (targetDeployments allObjects objectName keepCount)

/-- `str(obj.key).split('/')[0]` on the character list: everything up to
(not including) the first `'/'`; the whole list when there is none. -/
def takeUntilSlash : List Char → List Char
  | [] => []
  | c :: cs => if c = '/' then [] else c :: takeUntilSlash cs

/-- The `tlObjectPrefix` local of `deleteDeployments`:
`str(obj.key).split('/')[0]`. -/
def tlObjectPrefix (key : String) : String :=
  ⟨takeUntilSlash key.data⟩

/-- `bucket.objects.filter(Prefix=pfx)` membership test: the key starts
with `pfx` as a raw string prefix. -/
def startsWithStr (key pfx : String) : Bool :=
  pfx.data.isPrefixOf key.data

/-- The objects returned by `bucket.objects.filter(Prefix=pfx)`, in
listing order. -/
def objectsUnderPrefix (b : Bucket) (pfx : String) : List StoredObject :=
  b.objects.filter (fun o => startsWithStr o.key pfx)

/-- `getPrefixSize(bucket, prefix)`: fold `totalSize = totalSize + obj.size`
over `bucket.objects.filter(Prefix=prefix)`, starting from `0`. -/
def getPrefixSize (b : Bucket) (pfx : String) : Nat :=
  (objectsUnderPrefix b pfx).foldl (fun totalSize o => totalSize + o.size) 0

/-- A storage side effect issued by the core against the bucket. -/
inductive S3Event where
  /-- The read issued by `bucket.objects.all()`. -/
  | listObjects : S3Event
  /-- The read issued by `getPrefixSize` for one prefix. -/
  | sizeLookup (pfx : String) : S3Event
  /-- The write issued by `bucket.objects.filter(Prefix=pfx).delete()`. -/
  | deleteCall (pfx : String) : S3Event
deriving DecidableEq, Repr

/-- Effect of `bucket.objects.filter(Prefix=pfx).delete()` on the bucket
state: every object whose key starts with `pfx` is removed. -/
def deletePrefix (b : Bucket) (pfx : String) : Bucket :=
  ⟨b.name, b.objects.filter (fun o => !startsWithStr o.key pfx)⟩

/-- The report data of one `deleteDeployments` run: `prefixCount`,
`totalSize` (the accumulated `getPrefixSize` results) and the dry-run
flag. -/
structure DeletionReport where
  prefixCount : Nat
  totalSize : Nat
  dryRun : Bool
deriving DecidableEq, Repr

/-- The summary printed at the end of `deleteDeployments`
(`"\nDeletion finished.\nTotal Deleted Deployments: {}\nTotal Deleted
Data: {} KB".format(prefixCount, totalSize)`). -/
def summaryLine (prefixCount totalSize : Nat) : String :=
  "\nDeletion finished.\nTotal Deleted Deployments: " ++ toString prefixCount
    ++ "\nTotal Deleted Data: " ++ toString totalSize ++ " KB"

/-- The banner printed after the summary when `dryRun` is set. -/
def dryRunBanner : String :=
  "!!! Dry run enabled, no data has been deleted. !!!"

/-- State after the `for i, obj in enumerate(deployments)` loop of
`deleteDeployments`: final bucket, accumulated `totalSize`, the storage
events issued, and the per-prefix lines printed. -/
structure LoopResult where
  bucket : Bucket
  totalSize : Nat
  events : List S3Event
  lines : List String
deriving DecidableEq, Repr

/-- The body of `deleteDeployments`' loop.  Each iteration derives
`tlObjectPrefix`, queries `getPrefixSize` against the current bucket
state, accumulates it, prints the per-prefix line, and (unless `dryRun`)
issues the prefix delete, which shrinks the bucket for later
iterations. -/
def deleteLoop (dryRun : Bool) (bucket : Bucket) :
    List StoredObject → LoopResult
  | [] => ⟨bucket, 0, [], []⟩
  | obj :: rest =>
    let p := tlObjectPrefix obj.key
    let prefixSize := getPrefixSize bucket p
    let line := " Deleting s3://" ++ bucket.name ++ "/" ++ p
    if dryRun then
      let r := deleteLoop dryRun bucket rest
      ⟨r.bucket, prefixSize + r.totalSize,
        S3Event.sizeLookup p :: r.events, line :: r.lines⟩
    else
      let r := deleteLoop dryRun (deletePrefix bucket p) rest
      ⟨r.bucket, prefixSize + r.totalSize,
        S3Event.sizeLookup p :: S3Event.deleteCall p :: r.events,
        line :: r.lines⟩

/-- Everything observable about one `deleteDeployments(bucket,
deployments, dryRun)` run: the final bucket state, the report data, the
storage events issued, and the console output lines in order. -/
structure ExecOutcome where
  finalBucket : Bucket
  report : DeletionReport
  events : List S3Event
  output : List String
deriving DecidableEq, Repr

/-- `deleteDeployments(bucket, deployments, dryRun)`: print the header,
run the loop, print the summary and (when `dryRun`) the banner. -/
def deleteDeployments (bucket : Bucket) (deployments : List StoredObject)
    (dryRun : Bool) : ExecOutcome :=
  let prefixCount := deployments.length
  let header := "Deleting " ++ toString prefixCount
    ++ " old deployments from s3://" ++ bucket.name ++ ":\n"
  let r := deleteLoop dryRun bucket deployments
  ⟨r.bucket, ⟨prefixCount, r.totalSize, dryRun⟩, r.events,
    header :: r.lines ++ [summaryLine prefixCount r.totalSize]
      ++ (if dryRun then [dryRunBanner] else [])⟩

/-- The `bucket.objects.all()` read: returns the listing and leaves the
bucket unchanged. -/
def listAll (b : Bucket) : List StoredObject × Bucket :=
  (b.objects, b)

/-- One `getDeployments(bucket, ...)` invocation at the storage level:
it issues the single `listObjects` read and computes the selection from
the returned listing; the bucket state is returned alongside the result,
together with the trace of storage events issued. -/
def getDeploymentsOp (b : Bucket) (objectName : String) (keepCount : Int) :
    Except String (List StoredObject) × Bucket × List S3Event :=
  let (objs, b1) := listAll b
  (getDeployments objs objectName keepCount, b1, [S3Event.listObjects])

/-- No bucket object lies under the derived top-level prefixes of two
distinct entries of `deps`; under this condition deleting one entry's
prefix cannot change a later entry's size lookup. -/
def PrefixesIndependent (b : Bucket) (deps : List StoredObject) : Prop :=
  deps.Pairwise (fun d e => ∀ o ∈ b.objects,
    ¬(startsWithStr o.key (tlObjectPrefix d.key) = true ∧
      startsWithStr o.key (tlObjectPrefix e.key) = true))

instance (b : Bucket) (deps : List StoredObject) :
    Decidable (PrefixesIndependent b deps) := by
  unfold PrefixesIndependent
  infer_instance

/-! ### Lemmas about the stable sort -/

theorem insertByTime_perm (x : StoredObject) (l : List StoredObject) :
    List.Perm (insertByTime x l) (x :: l) := by
  induction l with
  | nil => simp [insertByTime]
  | cons y ys ih =>
    simp only [insertByTime]
    split
    · exact List.Perm.refl _
    · exact (ih.cons y).trans (List.Perm.swap x y ys)

theorem sortByLastModified_perm (l : List StoredObject) :
    List.Perm (sortByLastModified l) l := by
  induction l with
  | nil => simp [sortByLastModified]
  | cons x xs ih =>
    exact (insertByTime_perm x (sortByLastModified xs)).trans (ih.cons x)

theorem mem_sortByLastModified {a : StoredObject} {l : List StoredObject} :
    a ∈ sortByLastModified l ↔ a ∈ l :=
  (sortByLastModified_perm l).mem_iff

/-- Filtering by a predicate that pins the timestamp commutes with
`insertByTime`: the inserted element lands, within its timestamp class,
in front of nothing it should follow. -/
theorem filter_insertByTime (p : StoredObject → Bool) (t : Nat)
    (hp : ∀ o, p o = true → getLastModified o = t)
    (x : StoredObject) (l : List StoredObject) :
    (insertByTime x l).filter p =
      if p x then x :: l.filter p else l.filter p := by
  induction l with
  | nil =>
    by_cases hx : p x <;> simp [insertByTime, List.filter, hx]
  | cons y ys ih =>
    simp only [insertByTime]
    by_cases hxy : getLastModified x ≤ getLastModified y
    · simp [hxy, List.filter]
      by_cases hx : p x <;> simp [hx, List.filter]
    · simp only [hxy, if_false, List.filter_cons, ih]
      by_cases hx : p x
      · have hy : p y = false := by
          by_contra hy
          have hy' : p y = true := by
            cases hpy : p y
            · exact absurd hpy hy
            · rfl
          have := hp x hx
          have := hp y hy'
          omega
        simp [hx, hy]
      · simp [hx]

/-- Stability of the embedded sort: restricted to any predicate that
pins the timestamp, the sorted listing reads exactly like the original
listing. -/
theorem filter_sortByLastModified (p : StoredObject → Bool) (t : Nat)
    (hp : ∀ o, p o = true → getLastModified o = t)
    (l : List StoredObject) :
    (sortByLastModified l).filter p = l.filter p := by
  induction l with
  | nil => simp [sortByLastModified]
  | cons x xs ih =>
    simp only [sortByLastModified, filter_insertByTime p t hp, ih,
      List.filter_cons]

/-! ### Lemmas about the selection tail -/

theorem keepTail_eq_drop (l : List StoredObject) :
    ∀ (keepCount i : Int), keepTail keepCount i l = l.drop (keepCount - i).toNat := by
  induction l with
  | nil => intro k i; simp [keepTail]
  | cons o rest ih =>
    intro k i
    simp only [keepTail, ih]
    by_cases h : i ≥ k
    · have h0 : (k - i).toNat = 0 := by omega
      have h1 : (k - (i + 1)).toNat = 0 := by omega
      simp [h, h0, h1]
    · have h1 : (k - i).toNat = (k - (i + 1)).toNat + 1 := by omega
      simp [h, h1]

theorem targetDeployments_eq_drop (allObjects : List StoredObject)
    (objectName : String) (keepCount : Int) :
    targetDeployments allObjects objectName keepCount =
      (filteredDeployments allObjects objectName).drop keepCount.toNat := by
  simp [targetDeployments, keepTail_eq_drop]

/-! ### Lemmas about the executor -/

theorem foldl_add_size (l : List StoredObject) :
    ∀ n : Nat, l.foldl (fun totalSize o => totalSize + o.size) n =
      n + (l.map StoredObject.size).sum := by
  induction l with
  | nil => intro n; simp
  | cons o rest ih =>
    intro n
    simp [List.foldl_cons, ih, List.sum_cons, Nat.add_assoc]

/-- `getPrefixSize` is the raw byte sum of the objects currently under
the prefix: no unit conversion of any kind is applied. -/
theorem getPrefixSize_eq_sum (b : Bucket) (pfx : String) :
    getPrefixSize b pfx = ((objectsUnderPrefix b pfx).map StoredObject.size).sum := by
  simp [getPrefixSize, foldl_add_size]

/-- A dry run leaves the bucket untouched, still issues one size lookup
per entry (against the unchanged bucket), accumulates their raw results,
and prints one line per entry. -/
theorem deleteLoop_dry (bucket : Bucket) (deps : List StoredObject) :
    deleteLoop true bucket deps =
      ⟨bucket,
        (deps.map (fun o => getPrefixSize bucket (tlObjectPrefix o.key))).sum,
        deps.map (fun o => S3Event.sizeLookup (tlObjectPrefix o.key)),
        deps.map (fun o =>
          " Deleting s3://" ++ bucket.name ++ "/" ++ tlObjectPrefix o.key)⟩ := by
  induction deps with
  | nil => simp [deleteLoop]
  | cons obj rest ih =>
    simp [deleteLoop, ih, List.sum_cons]

theorem deletePrefix_name (b : Bucket) (pfx : String) :
    (deletePrefix b pfx).name = b.name := rfl

theorem mem_deletePrefix {o : StoredObject} {b : Bucket} {pfx : String} :
    o ∈ (deletePrefix b pfx).objects → o ∈ b.objects := by
  simp only [deletePrefix]
  exact fun h => List.mem_of_mem_filter h

/-- A non-dry run issues, per entry in order, one size lookup followed by
one delete call, and prints one line per entry; the bucket name never
changes along the way. -/
theorem deleteLoop_wet_trace (deps : List StoredObject) :
    ∀ bucket : Bucket,
      (deleteLoop false bucket deps).events =
        deps.flatMap (fun o =>
          [S3Event.sizeLookup (tlObjectPrefix o.key),
           S3Event.deleteCall (tlObjectPrefix o.key)]) ∧
      (deleteLoop false bucket deps).lines =
        deps.map (fun o =>
          " Deleting s3://" ++ bucket.name ++ "/" ++ tlObjectPrefix o.key) := by
  induction deps with
  | nil => intro bucket; simp [deleteLoop]
  | cons obj rest ih =>
    intro bucket
    have h := ih (deletePrefix bucket (tlObjectPrefix obj.key))
    simp [deleteLoop, h.1, h.2, deletePrefix_name]

/-- Deleting under a prefix that shares no bucket object with `pfx` does
not change the size lookup for `pfx`. -/
theorem getPrefixSize_deletePrefix (b : Bucket) (q pfx : String)
    (h : ∀ o ∈ b.objects,
      ¬(startsWithStr o.key q = true ∧ startsWithStr o.key pfx = true)) :
    getPrefixSize (deletePrefix b q) pfx = getPrefixSize b pfx := by
  have hobj : objectsUnderPrefix (deletePrefix b q) pfx = objectsUnderPrefix b pfx := by
    simp only [objectsUnderPrefix, deletePrefix, List.filter_filter]
    refine List.filter_congr ?_
    intro o ho
    by_cases hq : startsWithStr o.key q
    · have := h o ho
      have hp : startsWithStr o.key pfx = false := by
        by_contra hp
        refine this ⟨hq, ?_⟩
        cases hpv : startsWithStr o.key pfx
        · exact absurd hpv hp
        · rfl
      simp [hq, hp]
    · simp [hq]
  simp [getPrefixSize, hobj]

/-- When no bucket object lies under two distinct entries' prefixes, the
deletions of a non-dry run never disturb a later size lookup, so the run
accumulates the same per-prefix sizes a dry run reads off the initial
bucket. -/
theorem deleteLoop_wet_total (deps : List StoredObject) :
    ∀ bucket : Bucket, PrefixesIndependent bucket deps →
      (deleteLoop false bucket deps).totalSize =
        (deps.map (fun o => getPrefixSize bucket (tlObjectPrefix o.key))).sum := by
  induction deps with
  | nil => intro bucket _; simp [deleteLoop]
  | cons obj rest ih =>
    intro bucket hind
    have hpair := List.pairwise_cons.mp hind
    have hhead := hpair.1
    have hrest : PrefixesIndependent (deletePrefix bucket (tlObjectPrefix obj.key)) rest := by
      refine hpair.2.imp ?_
      intro d e hde o ho
      exact hde o (mem_deletePrefix ho)
    have hih := ih (deletePrefix bucket (tlObjectPrefix obj.key)) hrest
    have hmap : rest.map (fun o =>
        getPrefixSize (deletePrefix bucket (tlObjectPrefix obj.key)) (tlObjectPrefix o.key)) =
        rest.map (fun o => getPrefixSize bucket (tlObjectPrefix o.key)) := by
      refine List.map_congr_left ?_
      intro e he
      exact getPrefixSize_deletePrefix bucket (tlObjectPrefix obj.key)
        (tlObjectPrefix e.key) (hhead e he)
    simp [deleteLoop, hih, hmap, List.sum_cons]

/-! ### Auxiliary characterizations -/

theorem takeUntilSlash_eq_takeWhile (l : List Char) :
    takeUntilSlash l = l.takeWhile (fun c => c != '/') := by
  induction l with
  | nil => rfl
  | cons c cs ih =>
    by_cases hc : c = '/' <;>
      simp [takeUntilSlash, List.takeWhile_cons, hc, ih]

theorem takeUntilSlash_of_no_slash (l : List Char) (h : '/' ∉ l) :
    takeUntilSlash l = l := by
  induction l with
  | nil => rfl
  | cons c cs ih =>
    have hc : c ≠ '/' := fun hc => h (hc ▸ List.mem_cons_self c cs)
    have hcs : '/' ∉ cs := fun hcs => h (List.mem_cons_of_mem c hcs)
    simp [takeUntilSlash, hc, ih hcs]

theorem flatMap_singleton_eq_map (g : StoredObject → S3Event)
    (deps : List StoredObject) :
    deps.flatMap (fun o => [g o]) = deps.map g := by
  induction deps with
  | nil => rfl
  | cons o rest ih => simp [List.flatMap_cons, ih]

/-! ### The claims -/

/-- C1: the spec claims that for `keepCount ≥ 0` the selector returns
the `matchCount - keepCount` matching objects with the *oldest*
`lastModified` timestamps (retaining the `keepCount` most recent).  The
code does the opposite: at the spec's own scenario
`[a/index.html@1, b/index.html@2, c/index.html@3]`, filter
`"index.html"`, `keepCount = 2`, it selects the *newest* match
`c/index.html` for deletion (and would retain the two oldest), instead
of the oldest match `a/index.html` that the claim and the script's own
`--keep-count` help text ("Number of recent matches you to keep")
require. -/
theorem C1_code_behavior :
    getDeployments
        [⟨"a/index.html", 1, 10⟩, ⟨"b/index.html", 2, 20⟩,
         ⟨"c/index.html", 3, 30⟩] "index.html" 2 =
      Except.ok [⟨"c/index.html", 3, 30⟩] ∧
    getDeployments
        [⟨"a/index.html", 1, 10⟩, ⟨"b/index.html", 2, 20⟩,
         ⟨"c/index.html", 3, 30⟩] "index.html" 2 ≠
      Except.ok [⟨"a/index.html", 1, 10⟩] := by
  constructor
  · rfl
  · intro h
    rw [show getDeployments
        [⟨"a/index.html", 1, 10⟩, ⟨"b/index.html", 2, 20⟩,
         ⟨"c/index.html", 3, 30⟩] "index.html" 2 =
      Except.ok [⟨"c/index.html", 3, 30⟩] from rfl] at h
    exact absurd (Except.ok.inj h) (by simp)

/-- C2 counterexample: with `keepCount = -1` the selector does *not*
return the empty sequence; every index satisfies `i >= -1`, so the
single match is selected for deletion. -/
theorem C2_counterexample :
    getDeployments [⟨"a/index.html", 1, 10⟩] "index.html" (-1) =
      Except.ok [⟨"a/index.html", 1, 10⟩] ∧
    getDeployments [⟨"a/index.html", 1, 10⟩] "index.html" (-1) ≠
      Except.ok ([] : List StoredObject) := by
  refine ⟨rfl, ?_⟩
  intro h
  rw [show getDeployments [⟨"a/index.html", 1, 10⟩] "index.html" (-1) =
      Except.ok [⟨"a/index.html", 1, 10⟩] from rfl] at h
  exact absurd (Except.ok.inj h) (by simp)

/-- C2 amended: `keepCount = -1` selects *every* matching object for
deletion — its selection effect is identical to `keepCount = 0`
("delete everything"), not to "keep everything". -/
theorem C2_amended_selects_all (allObjects : List StoredObject)
    (objectName : String) :
    getDeployments allObjects objectName (-1) =
      getDeployments allObjects objectName 0 := by
  unfold getDeployments
  rw [targetDeployments_eq_drop, targetDeployments_eq_drop]
  rfl

/-- C3: when no key of the listing contains the filter as a substring,
the selector raises the no-match exception carrying the filter string,
for every `keepCount`; no selection is produced. -/
theorem C3_no_match_raises (allObjects : List StoredObject)
    (objectName : String) (keepCount : Int)
    (h : ∀ o ∈ allObjects, matchesFilter objectName o = false) :
    getDeployments allObjects objectName keepCount =
      Except.error (noMatchMessage objectName) := by
  have hfil : filteredDeployments allObjects objectName = [] := by
    refine List.filter_eq_nil_iff.mpr ?_
    intro a ha
    have ha' : a ∈ allObjects := by
      have : a ∈ sortByLastModified allObjects := ha
      exact mem_sortByLastModified.mp this
    simp [h a ha']
  simp [getDeployments, hfil]

/-- Witness for C3 at the spec's own example filter. -/
theorem C3_witness :
    getDeployments [⟨"a/b", 0, 0⟩] "nonexistent-xyz" 5 =
      Except.error (noMatchMessage "nonexistent-xyz") :=
  C3_no_match_raises [⟨"a/b", 0, 0⟩] "nonexistent-xyz" 5 (by decide)

/-- C5: the sort is stable.  Restricted to the objects of any fixed
timestamp `t`, the filtered-and-sorted sequence reads exactly like the
original listing filtered by the name filter; consequently the selected
tail (a suffix of it) and the retained head (a prefix of it) list
equal-timestamp surviving objects in their original listing order. -/
theorem C5_stable_ties (l : List StoredObject) (f : String) (k : Int)
    (t : Nat) :
    (filteredDeployments l f).filter (fun o => o.lastModified == t) =
      (l.filter (matchesFilter f)).filter (fun o => o.lastModified == t) ∧
    List.IsSuffix
      ((targetDeployments l f k).filter (fun o => o.lastModified == t))
      ((l.filter (matchesFilter f)).filter (fun o => o.lastModified == t)) ∧
    List.IsPrefix
      (((filteredDeployments l f).take k.toNat).filter
        (fun o => o.lastModified == t))
      ((l.filter (matchesFilter f)).filter (fun o => o.lastModified == t)) := by
  have hp : ∀ o : StoredObject,
      ((o.lastModified == t) && matchesFilter f o) = true →
        getLastModified o = t := by
    intro o ho
    have h1 := (Bool.and_eq_true _ _).mp ho
    have h2 : o.lastModified = t := by simpa using h1.1
    exact h2
  have h1 : (filteredDeployments l f).filter (fun o => o.lastModified == t) =
      (l.filter (matchesFilter f)).filter (fun o => o.lastModified == t) := by
    simp only [filteredDeployments, sortedDeployments, List.filter_filter]
    exact filter_sortByLastModified _ t hp l
  refine ⟨h1, ?_, ?_⟩
  · have hdrop := List.drop_suffix k.toNat (filteredDeployments l f)
    have := List.IsSuffix.filter (fun o => o.lastModified == t)
      (targetDeployments_eq_drop l f k ▸ hdrop)
    exact h1 ▸ this
  · have htake := List.take_prefix k.toNat (filteredDeployments l f)
    have := List.IsPrefix.filter (fun o => o.lastModified == t) htake
    exact h1 ▸ this

/-- C4 counterexample: with two selected markers sharing the top-level
prefix `a` (a realistic selection: both objects match `"index.html"`
and `keepCount = 0`), the dry run reports total size `60` while the
non-dry run against the same initial bucket reports `30`, because its
second size lookup runs after the first prefix delete has emptied the
prefix.  The claim's "same reported total size" is therefore false. -/
theorem C4_counterexample :
    getDeployments
        (Bucket.mk "bkt"
          [⟨"a/index.html", 1, 10⟩, ⟨"a/old/index.html", 2, 20⟩]).objects
        "index.html" 0 =
      Except.ok [⟨"a/index.html", 1, 10⟩, ⟨"a/old/index.html", 2, 20⟩] ∧
    (deleteDeployments
        (Bucket.mk "bkt"
          [⟨"a/index.html", 1, 10⟩, ⟨"a/old/index.html", 2, 20⟩])
        [⟨"a/index.html", 1, 10⟩, ⟨"a/old/index.html", 2, 20⟩]
        true).report.totalSize = 60 ∧
    (deleteDeployments
        (Bucket.mk "bkt"
          [⟨"a/index.html", 1, 10⟩, ⟨"a/old/index.html", 2, 20⟩])
        [⟨"a/index.html", 1, 10⟩, ⟨"a/old/index.html", 2, 20⟩]
        false).report.totalSize = 30 ∧
    (60 : Nat) ≠ 30 := by
  refine ⟨rfl, rfl, rfl, ?_⟩
  decide

/-- C4 amended: a dry run issues zero delete calls and leaves the bucket
unchanged, still issues one size lookup per selected entry, and reports
the same deployment count as a non-dry run; its reported total size
moreover agrees with the non-dry run whenever no bucket object lies
under the derived prefixes of two distinct selected entries (with
overlapping prefixes the non-dry run reports less, because later
lookups observe earlier deletions). -/
theorem C4_dry_run_simulation (bucket : Bucket) (deps : List StoredObject) :
    (deleteDeployments bucket deps true).finalBucket = bucket ∧
    (deleteDeployments bucket deps true).events =
      deps.map (fun o => S3Event.sizeLookup (tlObjectPrefix o.key)) ∧
    (deleteDeployments bucket deps true).report.prefixCount =
      (deleteDeployments bucket deps false).report.prefixCount ∧
    (PrefixesIndependent bucket deps →
      (deleteDeployments bucket deps true).report.totalSize =
        (deleteDeployments bucket deps false).report.totalSize) := by
  refine ⟨?_, ?_, rfl, ?_⟩
  · simp [deleteDeployments, deleteLoop_dry]
  · simp [deleteDeployments, deleteLoop_dry]
  · intro h
    have hdry :
        (deleteDeployments bucket deps true).report.totalSize =
          (deps.map (fun o => getPrefixSize bucket (tlObjectPrefix o.key))).sum := by
      simp [deleteDeployments, deleteLoop_dry]
    have hwet :
        (deleteDeployments bucket deps false).report.totalSize =
          (deps.map (fun o => getPrefixSize bucket (tlObjectPrefix o.key))).sum := by
      have := deleteLoop_wet_total deps bucket h
      simp [deleteDeployments, this]
    rw [hdry, hwet]

/-- Witness for C4 on a bucket with two independent prefixes. -/
theorem C4_witness :
    (deleteDeployments
        (Bucket.mk "bkt" [⟨"a/index.html", 1, 10⟩, ⟨"b/index.html", 2, 20⟩])
        [⟨"a/index.html", 1, 10⟩, ⟨"b/index.html", 2, 20⟩]
        true).report.totalSize =
      (deleteDeployments
        (Bucket.mk "bkt" [⟨"a/index.html", 1, 10⟩, ⟨"b/index.html", 2, 20⟩])
        [⟨"a/index.html", 1, 10⟩, ⟨"b/index.html", 2, 20⟩]
        false).report.totalSize :=
  (C4_dry_run_simulation
      (Bucket.mk "bkt" [⟨"a/index.html", 1, 10⟩, ⟨"b/index.html", 2, 20⟩])
      [⟨"a/index.html", 1, 10⟩, ⟨"b/index.html", 2, 20⟩]).2.2.2
    (by decide)

/-- C6: for every selected object the executor derives the deployment
prefix as the substring of the key up to (not including) the first `/`
— equivalently the longest slash-free prefix, and the whole key when no
`/` occurs — and uses exactly that prefix for the size lookup, the
delete call, and the per-prefix report line. -/
theorem C6_prefix_derivation :
    (∀ key : String, tlObjectPrefix key =
      String.mk (key.data.takeWhile (fun c => c != '/'))) ∧
    (∀ key : String, '/' ∉ key.data → tlObjectPrefix key = key) ∧
    (∀ (bucket : Bucket) (deps : List StoredObject) (dryRun : Bool),
      (deleteDeployments bucket deps dryRun).events =
        deps.flatMap (fun o => S3Event.sizeLookup (tlObjectPrefix o.key) ::
          (if dryRun then [] else [S3Event.deleteCall (tlObjectPrefix o.key)])) ∧
      (deleteDeployments bucket deps dryRun).output =
        ("Deleting " ++ toString deps.length ++ " old deployments from s3://"
            ++ bucket.name ++ ":\n")
          :: deps.map (fun o =>
              " Deleting s3://" ++ bucket.name ++ "/" ++ tlObjectPrefix o.key)
          ++ [summaryLine deps.length
              (deleteDeployments bucket deps dryRun).report.totalSize]
          ++ (if dryRun then [dryRunBanner] else [])) := by
  refine ⟨?_, ?_, ?_⟩
  · intro key
    simp [tlObjectPrefix, takeUntilSlash_eq_takeWhile]
  · intro key h
    have := takeUntilSlash_of_no_slash key.data h
    simp [tlObjectPrefix, this]
  · intro bucket deps dryRun
    cases dryRun with
    | true =>
      constructor
      · rw [show (deleteDeployments bucket deps true).events =
            deps.map (fun o => S3Event.sizeLookup (tlObjectPrefix o.key)) by
          simp [deleteDeployments, deleteLoop_dry]]
        rw [show deps.flatMap (fun o => S3Event.sizeLookup (tlObjectPrefix o.key) ::
            (if true then [] else [S3Event.deleteCall (tlObjectPrefix o.key)])) =
            deps.flatMap (fun o => [S3Event.sizeLookup (tlObjectPrefix o.key)]) by rfl]
        rw [flatMap_singleton_eq_map]
      · simp [deleteDeployments, deleteLoop_dry, summaryLine]
    | false =>
      have htr := deleteLoop_wet_trace deps bucket
      constructor
      · rw [show (deleteDeployments bucket deps false).events =
            (deleteLoop false bucket deps).events from rfl, htr.1]
        rfl
      · simp [deleteDeployments, htr.2, summaryLine]

/-- Witness for C6: a key without `/` is its own prefix. -/
theorem C6_witness : tlObjectPrefix "noslash" = "noslash" :=
  C6_prefix_derivation.2.1 "noslash" (by decide)

/-- C7 counterexample: with two selected entries sharing the top-level
prefix `a`, the non-dry run reports `30`, not the claimed
entry-by-entry sum `60` of the size lookup applied to each entry's
derived prefix over the initial bucket: the second lookup runs after
the first delete has already emptied the shared prefix. -/
theorem C7_counterexample :
    (deleteDeployments
        (Bucket.mk "bkt"
          [⟨"a/index.html", 1, 10⟩, ⟨"a/old/index.html", 2, 20⟩])
        [⟨"a/index.html", 1, 10⟩, ⟨"a/old/index.html", 2, 20⟩]
        false).report.totalSize ≠
      ([(⟨"a/index.html", 1, 10⟩ : StoredObject),
        ⟨"a/old/index.html", 2, 20⟩].map (fun o =>
          getPrefixSize
            (Bucket.mk "bkt"
              [⟨"a/index.html", 1, 10⟩, ⟨"a/old/index.html", 2, 20⟩])
            (tlObjectPrefix o.key))).sum := by
  decide

/-- C7 amended: the report's deployment count equals the length of the
selected sequence, and the executor issues one size lookup (plus, unless
dry-run, one delete call) per entry in order, with no deduplication of
repeated prefixes.  The total size equals the entry-by-entry sum of the
size lookup over the initial bucket for a dry run, and for a non-dry run
whenever no bucket object lies under two distinct entries' prefixes; in
a non-dry run with overlapping prefixes, later lookups observe earlier
deletions and contribute less. -/
theorem C7_report_accounting (bucket : Bucket) (deps : List StoredObject) :
    (∀ dryRun : Bool,
      (deleteDeployments bucket deps dryRun).report.prefixCount = deps.length) ∧
    (∀ dryRun : Bool,
      (deleteDeployments bucket deps dryRun).events =
        deps.flatMap (fun o => S3Event.sizeLookup (tlObjectPrefix o.key) ::
          (if dryRun then [] else [S3Event.deleteCall (tlObjectPrefix o.key)]))) ∧
    (deleteDeployments bucket deps true).report.totalSize =
      (deps.map (fun o => getPrefixSize bucket (tlObjectPrefix o.key))).sum ∧
    (PrefixesIndependent bucket deps →
      (deleteDeployments bucket deps false).report.totalSize =
        (deps.map (fun o => getPrefixSize bucket (tlObjectPrefix o.key))).sum) := by
  refine ⟨fun _ => rfl, ?_, ?_, ?_⟩
  · intro dryRun
    exact (C6_prefix_derivation.2.2 bucket deps dryRun).1
  · simp [deleteDeployments, deleteLoop_dry]
  · intro h
    have := deleteLoop_wet_total deps bucket h
    simp [deleteDeployments, this]

/-- Witness for C7 on a bucket with two independent prefixes. -/
theorem C7_witness :
    (deleteDeployments
        (Bucket.mk "bkt" [⟨"a/index.html", 1, 10⟩, ⟨"b/index.html", 2, 20⟩])
        [⟨"a/index.html", 1, 10⟩, ⟨"b/index.html", 2, 20⟩]
        false).report.totalSize =
      ([(⟨"a/index.html", 1, 10⟩ : StoredObject),
        ⟨"b/index.html", 2, 20⟩].map (fun o =>
          getPrefixSize
            (Bucket.mk "bkt" [⟨"a/index.html", 1, 10⟩, ⟨"b/index.html", 2, 20⟩])
            (tlObjectPrefix o.key))).sum :=
  (C7_report_accounting
      (Bucket.mk "bkt" [⟨"a/index.html", 1, 10⟩, ⟨"b/index.html", 2, 20⟩])
      [⟨"a/index.html", 1, 10⟩, ⟨"b/index.html", 2, 20⟩]).2.2.2
    (by decide)

/-- C8: the selector is a pure, deterministic read.  In the
state-threaded model, one invocation issues only the `listObjects` read
and hands the bucket back unchanged, so a second invocation on the
resulting state returns the identical selection, and the state after
both runs is the initial bucket. -/
theorem C8_selector_pure (b : Bucket) (objectName : String) (keepCount : Int) :
    (getDeploymentsOp b objectName keepCount).1 =
      (getDeploymentsOp (getDeploymentsOp b objectName keepCount).2.1
        objectName keepCount).1 ∧
    (getDeploymentsOp (getDeploymentsOp b objectName keepCount).2.1
      objectName keepCount).2.1 = b ∧
    (getDeploymentsOp b objectName keepCount).2.2 = [S3Event.listObjects] :=
  ⟨rfl, rfl, rfl⟩

/-- C9: the number rendered after `Total Deleted Data:` in the summary
is the raw byte sum — `getPrefixSize` adds up the objects' `size`
fields unchanged, the dry-run total is the plain sum of those per-prefix
sums over the initial bucket, and the summary embeds `toString` of
exactly that number, with the literal ` KB` label appended and no
division by 1024 anywhere. -/
theorem C9_raw_byte_total (b : Bucket) (deps : List StoredObject) :
    (∀ pfx : String, getPrefixSize b pfx =
      ((b.objects.filter (fun o => startsWithStr o.key pfx)).map
        StoredObject.size).sum) ∧
    (deleteDeployments b deps true).report.totalSize =
      (deps.map (fun o =>
        ((b.objects.filter (fun u =>
            startsWithStr u.key (tlObjectPrefix o.key))).map
          StoredObject.size).sum)).sum ∧
    summaryLine (deleteDeployments b deps true).report.prefixCount
        (deleteDeployments b deps true).report.totalSize =
      "\nDeletion finished.\nTotal Deleted Deployments: "
        ++ toString deps.length
        ++ "\nTotal Deleted Data: "
        ++ toString ((deps.map (fun o =>
            ((b.objects.filter (fun u =>
                startsWithStr u.key (tlObjectPrefix o.key))).map
              StoredObject.size).sum)).sum)
        ++ " KB" := by
  have h1 : ∀ pfx : String, getPrefixSize b pfx =
      ((b.objects.filter (fun o => startsWithStr o.key pfx)).map
        StoredObject.size).sum := by
    intro pfx
    rw [getPrefixSize_eq_sum]
    rfl
  have h2 : (deleteDeployments b deps true).report.totalSize =
      (deps.map (fun o =>
        ((b.objects.filter (fun u =>
            startsWithStr u.key (tlObjectPrefix o.key))).map
          StoredObject.size).sum)).sum := by
    have hd : (deleteDeployments b deps true).report.totalSize =
        (deps.map (fun o => getPrefixSize b (tlObjectPrefix o.key))).sum := by
      simp [deleteDeployments, deleteLoop_dry]
    rw [hd]
    exact congrArg List.sum (List.map_congr_left (fun o _ => h1 _))
  refine ⟨h1, h2, ?_⟩
  rw [show (deleteDeployments b deps true).report.prefixCount = deps.length
    from rfl, h2]
  rfl

/-- C10: on an empty selected sequence the executor touches the bucket
not at all — zero size lookups, zero delete calls, bucket unchanged —
and still prints the full report: the header for zero deployments and
the summary with deployment count 0 and total size 0 (plus the banner
when dry-run). -/
theorem C10_empty_selection (b : Bucket) (dryRun : Bool) :
    (deleteDeployments b [] dryRun).events = [] ∧
    (deleteDeployments b [] dryRun).finalBucket = b ∧
    (deleteDeployments b [] dryRun).report = ⟨0, 0, dryRun⟩ ∧
    (deleteDeployments b [] dryRun).output =
      ["Deleting 0 old deployments from s3://" ++ b.name ++ ":\n",
        summaryLine 0 0] ++ (if dryRun then [dryRunBanner] else []) := by
  cases dryRun <;> exact ⟨rfl, rfl, rfl, rfl⟩
